import Mathlib

/-!
Shallow embedding of the Pi Pico game engine (TFT ILI9341 driver, PicoGFX
graphics layer, and the cooperative engine loop) together with theorems
checking the natural-language specification against it.

Sources embedded:
* `src/Engine/engine_core.py` — `InputState`, `Engine._update_input`,
  `Engine._dispatch_input_events`, the gesture / update / draw portion of
  `Engine.run`.
* `src/Engine/gfx_pico.py` — `PicoGFX.safe_fill_rect`, `get_text_size`,
  `draw_text` position clamping, `_render_text_sprite`.
* `src/Driver/tft_ili9341.py` — `ILI9341._set_window`,
  `_set_window_for_read`, `fill_rect`, `blit_rgb565`, `text`.

Machine integers: MicroPython integers are unbounded, so coordinates are
`Int` and byte values are `Nat` (the source masks with `& 0xFF` wherever a
byte is produced).  The external `framebuf.FrameBuffer.text` glyph
rasterizer is not part of this repository; it is abstracted as an opaque
function parameter `fbR` applied identically wherever the source calls it.
-/

namespace PiPico

/-! ## Definitions -/

/-! ### `InputState` (engine_core.py, lines 4–18) -/

/-- `InputState`: six raw button levels plus six derived edge flags. -/
structure InputState where
  up : Bool
  down : Bool
  left : Bool
  right : Bool
  a : Bool
  b : Bool
  up_pressed : Bool
  down_pressed : Bool
  left_pressed : Bool
  right_pressed : Bool
  a_pressed : Bool
  b_pressed : Bool
deriving DecidableEq, Repr, Inhabited

/-- Fresh `InputState()`: every field is `False` in the constructor. -/
def InputState.init : InputState :=
  ⟨false, false, false, false, false, false,
   false, false, false, false, false, false⟩

/-- `Engine._update_input` (engine_core.py, lines 36–60): `prev` is the
current snapshot, the new snapshot copies the raw levels and computes each
`*_pressed` flag as `cur.x and not prev.x`.  The raw snapshot supplied by
the input provider is itself an `InputState` (only its level fields are
read). -/
def update_input (cur raw : InputState) : InputState :=
  let prev := cur
  { up := raw.up
    down := raw.down
    left := raw.left
    right := raw.right
    a := raw.a
    b := raw.b
    up_pressed := raw.up && !prev.up
    down_pressed := raw.down && !prev.down
    left_pressed := raw.left && !prev.left
    right_pressed := raw.right && !prev.right
    a_pressed := raw.a && !prev.a
    b_pressed := raw.b && !prev.b }

/-- The sequence of `_current_input` snapshots produced by running
`_update_input` once per tick over a list of raw samples, starting from
the snapshot `cur` (`InputState.init` at engine construction). -/
def runInput (cur : InputState) : List InputState → List InputState
  | [] => []
  | r :: rs =>
    let c := update_input cur r
    c :: runInput c rs

/-- The raw level of the tick before tick `i` (0-based): the engine's
initial snapshot for tick 0, otherwise sample `i - 1`. -/
def prevRaw (cur : InputState) (raws : List InputState) (i : Nat) : InputState :=
  if i = 0 then cur else raws.getD (i - 1) InputState.init

/-- A raw sample in which only the `up` level is set. -/
def rawUp (lvl : Bool) : InputState :=
  { InputState.init with up := lvl }

/-! ### The engine tick (engine_core.py, lines 62–140) -/

/-- Which optional hooks the game object defines (`hasattr` probes in
`_dispatch_input_events` and `run`), plus the value its optional
`should_redraw()` returns this tick. -/
structure GameCaps where
  has_on_up : Bool
  has_on_down : Bool
  has_on_left : Bool
  has_on_right : Bool
  has_on_a : Bool
  has_on_b : Bool
  has_reset : Bool
  has_should_redraw : Bool
  should_redraw : Bool
deriving DecidableEq, Repr

/-- Observable calls the engine makes into the game (and surface) during
one tick, in order. -/
inductive Ev
  | onUp
  | onDown
  | onLeft
  | onRight
  | onA
  | onB
  | reset
  | update
  | draw
  | present
deriving DecidableEq, Repr

/-- Engine state that persists across ticks of `run`. -/
structure EngineState where
  cur : InputState
  last_up_press_time : Option Int
  first_frame : Bool
deriving DecidableEq, Repr

/-- `Engine._dispatch_input_events` (engine_core.py, lines 62–86): one
optional callback per just-pressed button, in the fixed order up, down,
left, right, a, b. -/
def dispatch_input_events (g : GameCaps) (s : InputState) : List Ev :=
  (if s.up_pressed && g.has_on_up then [Ev.onUp] else []) ++
  (if s.down_pressed && g.has_on_down then [Ev.onDown] else []) ++
  (if s.left_pressed && g.has_on_left then [Ev.onLeft] else []) ++
  (if s.right_pressed && g.has_on_right then [Ev.onRight] else []) ++
  (if s.a_pressed && g.has_on_a then [Ev.onA] else []) ++
  (if s.b_pressed && g.has_on_b then [Ev.onB] else [])

/-- The tail of a tick that was not cut short by a double-tap
(engine_core.py, lines 122–134): `game.update`, then `draw`/`present`
when `should_redraw() or first_frame` (default `True` when the hook is
absent), then `first_frame = False`. -/
def tickTail (g : GameCaps) (cur : InputState) (lt : Option Int)
    (first : Bool) (evs : List Ev) : EngineState × List Ev :=
  let should_draw := if g.has_should_redraw then (g.should_redraw || first) else true
  (⟨cur, lt, false⟩,
    evs ++ [Ev.update] ++ (if should_draw then [Ev.draw, Ev.present] else []))

/-- One iteration of the `while` loop of `Engine.run` (engine_core.py,
lines 98–140), with wall-clock reads collapsed into the parameter `now`
(the value of `time.ticks_ms()` at the top of the iteration) and the
pacing sleep dropped.  Returns the state for the next iteration and the
ordered list of game calls made. -/
def engineTick (g : GameCaps) (st : EngineState) (raw : InputState)
    (now : Int) : EngineState × List Ev :=
  let cur := update_input st.cur raw
  let evs := dispatch_input_events g cur
  if cur.up_pressed then
    match st.last_up_press_time with
    | some t =>
      if now - t ≤ 400 then
        (⟨cur, none, st.first_frame⟩,
          evs ++ (if g.has_reset then [Ev.reset] else []))
      else
        tickTail g cur (some now) st.first_frame evs
    | none => tickTail g cur (some now) st.first_frame evs
  else
    tickTail g cur st.last_up_press_time st.first_frame evs

/-! ### `PicoGFX` (gfx_pico.py) -/

/-- A rectangle request `(x, y, w, h)` as passed to `fill_rect`. -/
structure Rect where
  x : Int
  y : Int
  w : Int
  h : Int
deriving DecidableEq, Repr

/-- `PicoGFX.safe_fill_rect` (gfx_pico.py, lines 40–60): early return on
non-positive size, clamp to the screen, early return on empty clip,
otherwise delegate to `fill_rect` with the clipped rectangle.  `none`
means no delegation happened; `some r` means `fill_rect` was called with
`r`. -/
def safe_fill_rect (W H : Int) (x y w h : Int) : Option Rect :=
  if w ≤ 0 ∨ h ≤ 0 then none
  else
    let x0 := max 0 x
    let y0 := max 0 y
    let x1 := min W (x + w)
    let y1 := min H (y + h)
    let cw := x1 - x0
    let ch := y1 - y0
    if cw ≤ 0 ∨ ch ≤ 0 then none
    else some ⟨x0, y0, cw, ch⟩

/-- `PicoGFX.get_text_size` (gfx_pico.py, lines 83–94): `scale < 1` is
clamped to 1, then `(8*len(text)*scale, 8*scale)`. -/
def get_text_size (text : String) (scale : Int) : Int × Int :=
  let s := if scale < 1 then 1 else scale
  let base_w : Int := 8 * text.length
  let base_h : Int := 8
  (base_w * s, base_h * s)

/-- The position-clamping portion of `PicoGFX.draw_text` (gfx_pico.py,
lines 106–120): clamp `scale`, compute the size via `get_text_size`, then
shift `x` and `y` so the text box ends up on screen. -/
def draw_text_pos (W H : Int) (x y : Int) (text : String) (scale : Int) :
    Int × Int :=
  let s := if scale < 1 then 1 else scale
  let wh := get_text_size text s
  let x := if x < 0 then 0 else x
  let y := if y < 0 then 0 else y
  let x := if x + wh.1 > W then W - wh.1 else x
  let y := if y + wh.2 > H then H - wh.2 else y
  (x, y)

/-- The background fill of an RGB565 text buffer: `bytearray(w*h*2)`
followed by `buf[i] = hi; buf[i+1] = lo` for every even `i`
(gfx_pico.py, lines 180–193 and tft_ili9341.py, lines 202–210). -/
def bgFill (pixels : Nat) (hi lo : Nat) : List Nat :=
  (List.replicate pixels [hi, lo]).flatten

/-- A sprite dict `{ "w", "h", "data" }` (the `path` entry is always
`None` for text sprites and carries no information). -/
structure Sprite where
  w : Nat
  h : Nat
  data : List Nat
deriving DecidableEq, Repr

/-- The nearest-neighbour scaling loop of `_render_text_sprite`
(gfx_pico.py, lines 211–218): `sy` outer, `sx` inner, each step writing
bytes `small[2*(sy/scale*base_w + sx/scale)]` and the byte after it to
`dst_index = 2*(sy*out_w+sx)` and `dst_index+1`.  Successive steps write
successive byte pairs, so the finished bytearray is this flattened
traversal. -/
def scaleBuf (small : List Nat) (base_w scale out_w out_h : Nat) : List Nat :=
  (List.range out_h).flatMap fun sy =>
    (List.range out_w).flatMap fun sx =>
      [small.getD (2 * (sy / scale * base_w + sx / scale)) 0,
       small.getD (2 * (sy / scale * base_w + sx / scale) + 1) 0]

/-- `PicoGFX._render_text_sprite` (gfx_pico.py, lines 168–225).  `fbR`
abstracts the external `framebuf` glyph rasterizer: it receives the text,
the colour and the background-filled buffer and returns the buffer with
the glyphs drawn (`fb.text(text, 0, 0, colour)`). -/
def render_text_sprite (fbR : String → Nat → List Nat → List Nat)
    (text : String) (colour : Nat) (bg : Option Nat) (scale0 : Nat) : Sprite :=
  let scale := if scale0 < 1 then 1 else scale0
  let base_w := 8 * text.length
  let base_h := 8
  let hi_bg := match bg with
    | none => 0
    | some v => (v >>> 8) &&& 0xFF
  let lo_bg := match bg with
    | none => 0
    | some v => v &&& 0xFF
  let small_buf := fbR text colour (bgFill (base_w * base_h) hi_bg lo_bg)
  if scale = 1 then
    ⟨base_w, base_h, small_buf⟩
  else
    ⟨base_w * scale, base_h * scale,
      scaleBuf small_buf base_w scale (base_w * scale) (base_h * scale)⟩

/-- The 2-byte pixel of a row-major RGB565 buffer of width `w` at
`(x, y)`. -/
def bufPixel (buf : List Nat) (w x y : Nat) : Nat × Nat :=
  (buf.getD (2 * (y * w + x)) 0, buf.getD (2 * (y * w + x) + 1) 0)

/-- High background byte of `_render_text_sprite`: 0 when `bg is None`,
else `(bg >> 8) & 0xFF`. -/
def bg_hi : Option Nat → Nat
  | none => 0
  | some v => (v >>> 8) &&& 0xFF

/-- Low background byte of `_render_text_sprite`: 0 when `bg is None`,
else `bg & 0xFF`. -/
def bg_lo : Option Nat → Nat
  | none => 0
  | some v => v &&& 0xFF

/-- The 1× base glyph buffer `small_buf` built by `_render_text_sprite`
after `fb.text` has drawn the glyphs. -/
def smallBuf (fbR : String → Nat → List Nat → List Nat) (text : String)
    (colour : Nat) (bg : Option Nat) : List Nat :=
  fbR text colour (bgFill (8 * text.length * 8) (bg_hi bg) (bg_lo bg))

/-! ### `ILI9341` driver (tft_ili9341.py) -/

/-- One transaction on the SPI bus: a command byte (`_write_cmd`) or a
data byte string (`_write_data`). -/
inductive BusEv
  | cmd (v : Nat)
  | data (bs : List Nat)
deriving DecidableEq, Repr

/-- `ILI9341._set_window` (tft_ili9341.py, lines 125–141): CASET with the
big-endian x bounds, PASET with the big-endian y bounds, then RAMWR. -/
def set_window (x0 y0 x1 y1 : Nat) : List BusEv :=
  [BusEv.cmd 0x2A,
   BusEv.data [(x0 >>> 8) &&& 0xFF, x0 &&& 0xFF, (x1 >>> 8) &&& 0xFF, x1 &&& 0xFF],
   BusEv.cmd 0x2B,
   BusEv.data [(y0 >>> 8) &&& 0xFF, y0 &&& 0xFF, (y1 >>> 8) &&& 0xFF, y1 &&& 0xFF],
   BusEv.cmd 0x2C]

/-- `ILI9341._set_window_for_read` (tft_ili9341.py, lines 144–160): same
addressing, RAMRD (0x2E) instead of RAMWR. -/
def set_window_for_read (x0 y0 x1 y1 : Nat) : List BusEv :=
  [BusEv.cmd 0x2A,
   BusEv.data [(x0 >>> 8) &&& 0xFF, x0 &&& 0xFF, (x1 >>> 8) &&& 0xFF, x1 &&& 0xFF],
   BusEv.cmd 0x2B,
   BusEv.data [(y0 >>> 8) &&& 0xFF, y0 &&& 0xFF, (y1 >>> 8) &&& 0xFF, y1 &&& 0xFF],
   BusEv.cmd 0x2E]

/-- The 16-bit big-endian byte pair of a coordinate, as the addressing
commands transmit it. -/
def be16 (v : Nat) : List Nat :=
  [v / 256 % 256, v % 256]

/-- High byte of an RGB565 colour, `(colour >> 8) & 0xFF`. -/
def be_hi (c : Nat) : Nat := (c >>> 8) &&& 0xFF

/-- Low byte of an RGB565 colour, `colour & 0xFF`. -/
def be_lo (c : Nat) : Nat := c &&& 0xFF

/-- The addressing window `(x0, y0, x1, y1)` latched by a draw call. -/
structure Window where
  x0 : Int
  y0 : Int
  x1 : Int
  y1 : Int
deriving DecidableEq, Repr

/-- The pixel-streaming `while` loop of `ILI9341.fill_rect`
(tft_ili9341.py, lines 178–186): `chunk = bytes([hi, lo]) * 64`, then
while pixels remain write `chunk[:n*2]` with `n = min(pixels, 64)`. -/
def fill_stream (hi lo : Nat) : Nat → List Nat
  | 0 => []
  | p + 1 =>
    let n := min (p + 1) 64
    (((List.replicate 64 [hi, lo]).flatten).take (n * 2)) ++
      fill_stream hi lo (p + 1 - n)
decreasing_by
  omega

/-- `ILI9341.fill_rect` (tft_ili9341.py, lines 167–186): no-op on
non-positive size or any part out of bounds, else set the window to
`(x, y, x+w-1, y+h-1)` and stream `w*h` pixels of the colour.  `none`
means no bus traffic at all. -/
def tft_fill_rect (W H : Int) (x y w h : Int) (colour : Nat) :
    Option (Window × List Nat) :=
  if w ≤ 0 ∨ h ≤ 0 then none
  else
    let x1 := x + w - 1
    let y1 := y + h - 1
    if x < 0 ∨ y < 0 ∨ x1 ≥ W ∨ y1 ≥ H then none
    else some (⟨x, y, x1, y1⟩, fill_stream (be_hi colour) (be_lo colour) (w * h).toNat)

/-- `ILI9341.blit_rgb565` (tft_ili9341.py, lines 193–195): set the window
to `(x, y, x+w-1, y+h-1)` and write the buffer verbatim. -/
def blit_rgb565 (x y w h : Int) (buf : List Nat) : Window × List Nat :=
  (⟨x, y, x + w - 1, y + h - 1⟩, buf)

/-- `ILI9341.text` (tft_ili9341.py, lines 197–213): early return on empty
text, else rasterize into a `8*len × 8` RGB565 buffer filled with `bg`
(default `0x0000` at the `draw_text` call site) and blit it at `(x, y)`.
`fbR` abstracts `fb.text(text, 0, 0, colour)` exactly as in
`render_text_sprite`. -/
def tft_text (fbR : String → Nat → List Nat → List Nat) (x y : Int)
    (text : String) (colour : Nat) (bg : Nat) : Option (Window × List Nat) :=
  if text = "" then none
  else
    let w : Nat := 8 * text.length
    let h : Nat := 8
    let buf := fbR text colour (bgFill (w * h) ((bg >>> 8) &&& 0xFF) (bg &&& 0xFF))
    some (blit_rgb565 x y w h buf)

/-- The sprite path of `PicoGFX.draw_text` for a cache key
`(text, colour, bg, scale)` (gfx_pico.py, lines 129–131 and 147–149):
build the sprite with `_render_text_sprite` and blit its data at the
clamped position. -/
def draw_text_sprite_path (fbR : String → Nat → List Nat → List Nat)
    (x y : Int) (text : String) (colour : Nat) (bg : Option Nat)
    (scale : Nat) : Window × List Nat :=
  let spr := render_text_sprite fbR text colour bg scale
  blit_rgb565 x y spr.w spr.h spr.data

/-! ## Helper lemmas -/

theorem getD_append_left (l l' : List Nat) (i : Nat) (h : i < l.length) :
    (l ++ l').getD i 0 = l.getD i 0 := by
  simp [List.getD, List.getElem?_append, h]

theorem getD_append_right (l l' : List Nat) (i : Nat) (h : l.length ≤ i) :
    (l ++ l').getD i 0 = l'.getD (i - l.length) 0 := by
  simp [List.getD, List.getElem?_append, Nat.not_lt.mpr h]

theorem length_flatMap_const (f : Nat → List Nat) (m : Nat)
    (hlen : ∀ i, (f i).length = m) (n : Nat) :
    ((List.range n).flatMap f).length = n * m := by
  induction n with
  | zero => simp
  | succ k ih =>
    rw [List.range_succ]
    simp [ih, hlen, Nat.succ_mul]

theorem getD_flatMap_range (f : Nat → List Nat) (m : Nat)
    (hlen : ∀ i, (f i).length = m) (n q r : Nat) (hq : q < n) (hr : r < m) :
    ((List.range n).flatMap f).getD (q * m + r) 0 = (f q).getD r 0 := by
  induction n with
  | zero => omega
  | succ k ih =>
    rw [List.range_succ, List.flatMap_append]
    by_cases hqk : q < k
    · have hidx : q * m + r < ((List.range k).flatMap f).length := by
        rw [length_flatMap_const f m hlen k]
        calc q * m + r < q * m + m := by omega
          _ = (q + 1) * m := by ring
          _ ≤ k * m := Nat.mul_le_mul_right m (by omega)
      rw [getD_append_left _ _ _ hidx]
      exact ih hqk
    · have hq' : q = k := by omega
      subst hq'
      have hlen' : ((List.range q).flatMap f).length = q * m :=
        length_flatMap_const f m hlen q
      rw [getD_append_right _ _ _ (by omega)]
      simp [hlen']

theorem runInput_length (cur : InputState) (raws : List InputState) :
    (runInput cur raws).length = raws.length := by
  induction raws generalizing cur with
  | nil => rfl
  | cons r rs ih => simp [runInput, ih]

/-- Edge-detection law for each of the six buttons at every tick,
generalized over the initial snapshot. -/
theorem runInput_pressed (cur : InputState) (raws : List InputState) (i : Nat)
    (h : i < raws.length) :
    ((runInput cur raws).getD i InputState.init).up_pressed
      = ((raws.getD i InputState.init).up && !(prevRaw cur raws i).up) ∧
    ((runInput cur raws).getD i InputState.init).down_pressed
      = ((raws.getD i InputState.init).down && !(prevRaw cur raws i).down) ∧
    ((runInput cur raws).getD i InputState.init).left_pressed
      = ((raws.getD i InputState.init).left && !(prevRaw cur raws i).left) ∧
    ((runInput cur raws).getD i InputState.init).right_pressed
      = ((raws.getD i InputState.init).right && !(prevRaw cur raws i).right) ∧
    ((runInput cur raws).getD i InputState.init).a_pressed
      = ((raws.getD i InputState.init).a && !(prevRaw cur raws i).a) ∧
    ((runInput cur raws).getD i InputState.init).b_pressed
      = ((raws.getD i InputState.init).b && !(prevRaw cur raws i).b) := by
  induction raws generalizing cur i with
  | nil => simp at h
  | cons r rs ih =>
    cases i with
    | zero => simp [runInput, prevRaw, update_input]
    | succ n =>
      have hn : n < rs.length := by simpa using h
      have hrec := ih (update_input cur r) n hn
      cases n with
      | zero =>
        simpa [runInput, prevRaw, update_input] using hrec
      | succ m =>
        simpa [runInput, prevRaw, Nat.succ_sub_one] using hrec

theorem and_255 (n : Nat) : n &&& 0xFF = n % 256 := by
  have := Nat.and_pow_two_sub_one_eq_mod n 8
  simpa using this

theorem shiftRight_8 (n : Nat) : n >>> 8 = n / 256 := by
  simp [Nat.shiftRight_eq_div_pow]

/-! ## Claim theorems -/

/-- C1: on every tick and for each of the six buttons, the just-pressed
flag computed by `_update_input` equals the current raw level AND NOT the
raw level of the immediately previous tick (the engine's all-false initial
snapshot before tick 0); and the raw `up` sequence `[F,T,T,F,T]` yields
`up_pressed = true` exactly at ticks 2 and 5 (1-based). -/
theorem claim_c1 :
    (∀ (raws : List InputState) (i : Nat), i < raws.length →
      ((runInput InputState.init raws).getD i InputState.init).up_pressed
        = ((raws.getD i InputState.init).up && !(prevRaw InputState.init raws i).up) ∧
      ((runInput InputState.init raws).getD i InputState.init).down_pressed
        = ((raws.getD i InputState.init).down && !(prevRaw InputState.init raws i).down) ∧
      ((runInput InputState.init raws).getD i InputState.init).left_pressed
        = ((raws.getD i InputState.init).left && !(prevRaw InputState.init raws i).left) ∧
      ((runInput InputState.init raws).getD i InputState.init).right_pressed
        = ((raws.getD i InputState.init).right && !(prevRaw InputState.init raws i).right) ∧
      ((runInput InputState.init raws).getD i InputState.init).a_pressed
        = ((raws.getD i InputState.init).a && !(prevRaw InputState.init raws i).a) ∧
      ((runInput InputState.init raws).getD i InputState.init).b_pressed
        = ((raws.getD i InputState.init).b && !(prevRaw InputState.init raws i).b)) ∧
    (runInput InputState.init
        [rawUp false, rawUp true, rawUp true, rawUp false, rawUp true]).map
        (fun s => s.up_pressed) = [false, true, false, false, true] := by
  exact ⟨fun raws i h => runInput_pressed InputState.init raws i h, by decide⟩

/-- C1 witness: the edge law evaluated at the concrete one-sample sequence
`[up]`. -/
theorem claim_c1_witness :
    ((runInput InputState.init [rawUp true]).getD 0 InputState.init).up_pressed
      = ((([rawUp true] : List InputState).getD 0 InputState.init).up
          && !(prevRaw InputState.init [rawUp true] 0).up) :=
  (claim_c1.1 [rawUp true] 0 (by decide)).1

/-- C7: `_set_window` emits CASET followed by the two 16-bit big-endian x
bounds, PASET followed by the two 16-bit big-endian y bounds, then RAMWR;
`_set_window_for_read` emits the identical addressing bytes with RAMRD in
place of RAMWR. -/
theorem claim_c7 (x0 y0 x1 y1 : Nat) :
    set_window x0 y0 x1 y1 =
      [BusEv.cmd 0x2A, BusEv.data (be16 x0 ++ be16 x1),
       BusEv.cmd 0x2B, BusEv.data (be16 y0 ++ be16 y1),
       BusEv.cmd 0x2C] ∧
    set_window_for_read x0 y0 x1 y1 =
      (set_window x0 y0 x1 y1).dropLast ++ [BusEv.cmd 0x2E] := by
  constructor
  · simp [set_window, be16, and_255, shiftRight_8, Nat.mod_mod_of_dvd]
  · simp [set_window, set_window_for_read, List.dropLast]

/-- C8: `get_text_size` returns `(8*len(text)*scale, 8*scale)` with any
`scale < 1` clamped to 1 first; in particular
`get_text_size "HIT" 2 = (48, 16)`. -/
theorem claim_c8 :
    (∀ (text : String) (scale : Int),
      get_text_size text scale =
        (8 * text.length * max 1 scale, 8 * max 1 scale)) ∧
    get_text_size "HIT" 2 = (48, 16) := by
  constructor
  · intro text scale
    unfold get_text_size
    by_cases hs : scale < 1
    · have hm : max 1 scale = 1 := by omega
      simp [hs, hm]
    · have hm : max 1 scale = scale := by omega
      simp [hs, hm]
  · decide

/-- C3: `safe_fill_rect` either performs no draw at all or delegates to
`fill_rect` with exactly the intersection of the requested rectangle with
`[0,W)×[0,H)` (stated pixel-wise: a pixel is covered by the delegated
rectangle iff it lies both in the requested rectangle and on the surface);
any delegated rectangle lies entirely within the surface bounds; and the
scenario `safe_fill_rect (-5) 0 10 10` on the 240×320 surface delegates
`(0, 0, 5, 10)`. -/
theorem claim_c3 (W H x y w h : Int) :
    (∀ px py : Int,
      (∃ r, safe_fill_rect W H x y w h = some r ∧
        r.x ≤ px ∧ px < r.x + r.w ∧ r.y ≤ py ∧ py < r.y + r.h) ↔
      ((x ≤ px ∧ px < x + w ∧ 0 ≤ px ∧ px < W) ∧
       (y ≤ py ∧ py < y + h ∧ 0 ≤ py ∧ py < H))) ∧
    (∀ r, safe_fill_rect W H x y w h = some r →
      0 ≤ r.x ∧ r.x + r.w ≤ W ∧ 0 ≤ r.y ∧ r.y + r.h ≤ H ∧ 0 < r.w ∧ 0 < r.h) ∧
    safe_fill_rect 240 320 (-5) 0 10 10 = some ⟨0, 0, 5, 10⟩ := by
  refine ⟨?_, ?_, by decide⟩
  · intro px py
    simp only [safe_fill_rect]
    split_ifs with h1 h2
    · simp only [reduceCtorEq, false_and, exists_false, false_iff]
      omega
    · simp only [reduceCtorEq, false_and, exists_false, false_iff]
      omega
    · simp only [Option.some.injEq, exists_eq_left']
      omega
  · intro r hr
    simp only [safe_fill_rect] at hr
    split_ifs at hr with h1 h2
    · simp only [Option.some.injEq] at hr
      subst hr
      simp only
      omega

/-- C3 witness: the rectangle delegated for the scenario request
`(-5, 0, 10, 10)` lies within the 240×320 surface. -/
theorem claim_c3_witness :
    0 ≤ (Rect.mk 0 0 5 10).x ∧
    (Rect.mk 0 0 5 10).x + (Rect.mk 0 0 5 10).w ≤ 240 ∧
    0 ≤ (Rect.mk 0 0 5 10).y ∧
    (Rect.mk 0 0 5 10).y + (Rect.mk 0 0 5 10).h ≤ 320 ∧
    0 < (Rect.mk 0 0 5 10).w ∧ 0 < (Rect.mk 0 0 5 10).h :=
  (claim_c3 240 320 (-5) 0 10 10).2.1 ⟨0, 0, 5, 10⟩ (by decide)

/-- The `chunk[:n*2]` slice of `bytes([hi, lo]) * 64` is `n` copies of the
colour pair. -/
theorem take_chunk (hi lo : Nat) :
    ∀ m n, n ≤ m →
      ((List.replicate m [hi, lo]).flatten).take (n * 2)
        = (List.replicate n [hi, lo]).flatten := by
  intro m n
  induction n generalizing m with
  | zero => simp
  | succ k ih =>
    intro hnm
    match m, hnm with
    | m' + 1, _ =>
      have : (k + 1) * 2 = k * 2 + 2 := by ring
      simp only [List.replicate_succ, List.flatten_cons, this]
      simp [List.take_cons, ih m' (by omega)]

/-- The chunked while loop of `fill_rect` streams exactly `p` copies of
the colour pair. -/
theorem fill_stream_eq (hi lo : Nat) (p : Nat) :
    fill_stream hi lo p = (List.replicate p [hi, lo]).flatten := by
  induction p using Nat.strong_induction_on with
  | _ p ih =>
    match p with
    | 0 => simp [fill_stream]
    | q + 1 =>
      rw [fill_stream]
      have hle : min (q + 1) 64 ≤ 64 := min_le_right _ _
      rw [take_chunk hi lo 64 (min (q + 1) 64) hle,
        ih (q + 1 - min (q + 1) 64) (by omega),
        ← List.flatten_append, ← List.replicate_add]
      congr 2
      omega

/-- C5: the driver's unclipped `fill_rect` issues no bus traffic exactly
when `w ≤ 0`, `h ≤ 0`, or the rectangle `(x, y, x+w-1, y+h-1)` is not
fully within `[0,W)×[0,H)`; otherwise it latches the window to exactly
that rectangle and streams `w*h` repetitions of the 2-byte big-endian
colour. -/
theorem claim_c5 (W H x y w h : Int) (colour : Nat) :
    tft_fill_rect W H x y w h colour =
      if w ≤ 0 ∨ h ≤ 0 ∨ x < 0 ∨ y < 0 ∨ x + w - 1 ≥ W ∨ y + h - 1 ≥ H then
        none
      else
        some (⟨x, y, x + w - 1, y + h - 1⟩,
          (List.replicate (w * h).toNat [be_hi colour, be_lo colour]).flatten) := by
  simp only [tft_fill_rect]
  split_ifs with h1 h2 h3 h4 <;>
    first
      | rfl
      | (rw [fill_stream_eq])
      | omega

/-- C6 counterexample: for a 31-character text at scale 1 on the 240-wide
surface, `draw_text` computes a drawn origin with `x' = -8 < 0`, so the
full text bounding box does not lie within `[0,width)` and the claim as
stated fails. -/
theorem claim_c6_counterexample :
    (draw_text_pos 240 320 0 0 "AAAAAAAAAAAAAAAAAAAAAAAAAAAAAAA" 1).1 < 0 := by
  decide

/-- C6 (amended): provided the text bounding box fits on the surface
(`w ≤ width` and `h ≤ height`), `draw_text` clamps the position so the
full box lies within `[0,width)×[0,height)`: the drawn origin `(x', y')`
satisfies `0 ≤ x'`, `x' + w ≤ width`, `0 ≤ y'` and `y' + h ≤ height`. -/
theorem claim_c6 (W H x y : Int) (text : String) (scale : Int)
    (hw : (get_text_size text scale).1 ≤ W)
    (hh : (get_text_size text scale).2 ≤ H) :
    0 ≤ (draw_text_pos W H x y text scale).1 ∧
    (draw_text_pos W H x y text scale).1 + (get_text_size text scale).1 ≤ W ∧
    0 ≤ (draw_text_pos W H x y text scale).2 ∧
    (draw_text_pos W H x y text scale).2 + (get_text_size text scale).2 ≤ H := by
  unfold draw_text_pos get_text_size at *
  by_cases hs : scale < 1 <;>
    simp only [hs, if_true, if_false, Int.lt_irrefl] at * <;>
    split_ifs at * <;>
    omega

/-- C6 witness: the amended clamping law evaluated for `"HI"` at scale 2
placed at `(1000, -3)` on the 240×320 surface. -/
theorem claim_c6_witness :
    0 ≤ (draw_text_pos 240 320 1000 (-3) "HI" 2).1 ∧
    (draw_text_pos 240 320 1000 (-3) "HI" 2).1 + (get_text_size "HI" 2).1 ≤ 240 ∧
    0 ≤ (draw_text_pos 240 320 1000 (-3) "HI" 2).2 ∧
    (draw_text_pos 240 320 1000 (-3) "HI" 2).2 + (get_text_size "HI" 2).2 ≤ 320 :=
  claim_c6 240 320 1000 (-3) "HI" 2 (by decide) (by decide)

theorem update_not_mem_dispatch (g : GameCaps) (s : InputState) :
    Ev.update ∉ dispatch_input_events g s := by
  unfold dispatch_input_events
  split_ifs <;> decide

theorem draw_not_mem_dispatch (g : GameCaps) (s : InputState) :
    Ev.draw ∉ dispatch_input_events g s := by
  unfold dispatch_input_events
  split_ifs <;> decide

theorem reset_not_mem_dispatch (g : GameCaps) (s : InputState) :
    Ev.reset ∉ dispatch_input_events g s := by
  unfold dispatch_input_events
  split_ifs <;> decide

theorem dispatch_up_cons (g : GameCaps) (s : InputState)
    (h1 : s.up_pressed = true) (h2 : g.has_on_up = true) :
    ∃ rest, dispatch_input_events g s = Ev.onUp :: rest ∧
      Ev.reset ∉ rest ∧ Ev.update ∉ rest ∧ Ev.draw ∉ rest := by
  have hr := reset_not_mem_dispatch g s
  have hu := update_not_mem_dispatch g s
  have hd := draw_not_mem_dispatch g s
  unfold dispatch_input_events at *
  rw [if_pos (by simp [h1, h2])] at *
  exact ⟨_, rfl, fun hm => hr (List.mem_cons_of_mem _ hm),
    fun hm => hu (List.mem_cons_of_mem _ hm),
    fun hm => hd (List.mem_cons_of_mem _ hm)⟩

theorem update_mem_tickTail (g : GameCaps) (cur : InputState) (lt : Option Int)
    (first : Bool) (evs : List Ev) :
    Ev.update ∈ (tickTail g cur lt first evs).2 := by
  simp [tickTail]

/-- C2: on every tick, double-tap recognition fires (observably: the
tick's `game.update` call is skipped) exactly when an `up` press edge
occurs while a candidate timestamp is recorded and the elapsed time since
it is at most the 400 ms threshold; a firing tick clears the candidate,
invokes the game's reset handler when the game defines one, and also
skips the draw call. -/
theorem claim_c2 (g : GameCaps) (st : EngineState) (raw : InputState) (now : Int) :
    (Ev.update ∉ (engineTick g st raw now).2 ↔
      ((update_input st.cur raw).up_pressed = true ∧
        ∃ t, st.last_up_press_time = some t ∧ now - t ≤ 400)) ∧
    (Ev.update ∉ (engineTick g st raw now).2 →
      (engineTick g st raw now).1.last_up_press_time = none ∧
      (g.has_reset = true → Ev.reset ∈ (engineTick g st raw now).2) ∧
      Ev.draw ∉ (engineTick g st raw now).2) := by
  have hu := update_not_mem_dispatch g (update_input st.cur raw)
  have hd := draw_not_mem_dispatch g (update_input st.cur raw)
  simp only [engineTick]
  rcases hup : (update_input st.cur raw).up_pressed with _ | _
  · simp only [Bool.false_eq_true, if_false]
    constructor
    · simp [update_mem_tickTail, hup]
    · intro hmem
      exact absurd (update_mem_tickTail g _ _ _ _) hmem
  · simp only [if_true]
    rcases hlt : st.last_up_press_time with _ | t
    · simp only
      constructor
      · simp [update_mem_tickTail]
      · intro hmem
        exact absurd (update_mem_tickTail g _ _ _ _) hmem
    · simp only
      by_cases hdt : now - t ≤ 400
      · rw [if_pos hdt]
        constructor
        · simp only [List.mem_append]
          constructor
          · intro _
            refine ⟨?_, t, ?_, hdt⟩ <;> trivial
          · intro _ hmem
            rcases hmem with hmem | hmem
            · exact hu hmem
            · rcases g.has_reset with _ | _ <;> simp_all
        · intro _
          refine ⟨rfl, ?_, ?_⟩
          · intro hres
            simp [hres]
          · simp only [List.mem_append]
            intro hmem
            rcases hmem with hmem | hmem
            · exact hd hmem
            · rcases g.has_reset with _ | _ <;> simp_all
      · rw [if_neg hdt]
        constructor
        · simp only [update_mem_tickTail, not_true_eq_false, false_iff]
          rintro ⟨-, t', ht', hdt'⟩
          injection ht' with h
          omega
        · intro hmem
          exact absurd (update_mem_tickTail g _ _ _ _) hmem

/-- C2 witness: a concrete firing tick — candidate recorded at 0 ms, `up`
edge at 100 ms, all hooks present — skips update, clears the candidate,
invokes reset and skips draw. -/
theorem claim_c2_witness :
    (engineTick ⟨true, true, true, true, true, true, true, true, true⟩
        ⟨InputState.init, some 0, true⟩ (rawUp true) 100).1.last_up_press_time = none ∧
    ((⟨true, true, true, true, true, true, true, true, true⟩ : GameCaps).has_reset = true →
      Ev.reset ∈
        (engineTick ⟨true, true, true, true, true, true, true, true, true⟩
          ⟨InputState.init, some 0, true⟩ (rawUp true) 100).2) ∧
    Ev.draw ∉
      (engineTick ⟨true, true, true, true, true, true, true, true, true⟩
        ⟨InputState.init, some 0, true⟩ (rawUp true) 100).2 :=
  (claim_c2 ⟨true, true, true, true, true, true, true, true, true⟩
    ⟨InputState.init, some 0, true⟩ (rawUp true) 100).2 (by decide)

/-- C10: on a tick on which the double-tap fires, a game that defines
`on_up_pressed` still has it invoked, and before `reset`: the event list
starts with the `up` dispatch, `reset` occurs later in it, and neither
`update` nor `draw` occurs at all. -/
theorem claim_c10 (g : GameCaps) (st : EngineState) (raw : InputState)
    (now t : Int)
    (hup : (update_input st.cur raw).up_pressed = true)
    (hcand : st.last_up_press_time = some t) (hdt : now - t ≤ 400)
    (hhu : g.has_on_up = true) (hhr : g.has_reset = true) :
    ∃ rest, (engineTick g st raw now).2 = Ev.onUp :: rest ∧
      Ev.reset ∈ rest ∧
      Ev.update ∉ (engineTick g st raw now).2 ∧
      Ev.draw ∉ (engineTick g st raw now).2 := by
  obtain ⟨rest, hdisp, hres, hupd, hdrw⟩ :=
    dispatch_up_cons g (update_input st.cur raw) hup hhu
  simp only [engineTick, hup, if_true, hcand, if_pos hdt, hdisp, hhr]
  refine ⟨rest ++ [Ev.reset], by simp, by simp, ?_, ?_⟩ <;>
    simp_all

/-- C10 witness: the firing tick of the C2 scenario dispatches `onUp`
first and `reset` afterwards. -/
theorem claim_c10_witness :
    ∃ rest,
      (engineTick ⟨true, true, true, true, true, true, true, true, true⟩
          ⟨InputState.init, some 0, true⟩ (rawUp true) 100).2 = Ev.onUp :: rest ∧
      Ev.reset ∈ rest ∧
      Ev.update ∉
        (engineTick ⟨true, true, true, true, true, true, true, true, true⟩
          ⟨InputState.init, some 0, true⟩ (rawUp true) 100).2 ∧
      Ev.draw ∉
        (engineTick ⟨true, true, true, true, true, true, true, true, true⟩
          ⟨InputState.init, some 0, true⟩ (rawUp true) 100).2 :=
  claim_c10 ⟨true, true, true, true, true, true, true, true, true⟩
    ⟨InputState.init, some 0, true⟩ (rawUp true) 100 0
    (by decide) rfl (by decide) rfl rfl

/-- Indexing law for the nearest-neighbour scaling loop: the byte at
destination index `2*(dy*out_w+dx)+k` came from source index
`2*(dy/s*base_w+dx/s)+k`. -/
theorem scaleBuf_getD (small : List Nat) (base_w s out_w out_h dx dy k : Nat)
    (hdx : dx < out_w) (hdy : dy < out_h) (hk : k < 2) :
    (scaleBuf small base_w s out_w out_h).getD (2 * (dy * out_w + dx) + k) 0
      = small.getD (2 * (dy / s * base_w + dx / s) + k) 0 := by
  unfold scaleBuf
  have hInner : ∀ sy : Nat, ((List.range out_w).flatMap fun sx =>
      [small.getD (2 * (sy / s * base_w + sx / s)) 0,
       small.getD (2 * (sy / s * base_w + sx / s) + 1) 0]).length = out_w * 2 :=
    fun sy => length_flatMap_const
      (fun sx => [small.getD (2 * (sy / s * base_w + sx / s)) 0,
        small.getD (2 * (sy / s * base_w + sx / s) + 1) 0]) 2 (fun _ => rfl) out_w
  have hidx : 2 * (dy * out_w + dx) + k = dy * (out_w * 2) + (dx * 2 + k) := by
    ring
  rw [hidx,
    getD_flatMap_range _ (out_w * 2) hInner out_h dy (dx * 2 + k) hdy (by omega),
    getD_flatMap_range
      (fun sx => [small.getD (2 * (dy / s * base_w + sx / s)) 0,
        small.getD (2 * (dy / s * base_w + sx / s) + 1) 0])
      2 (fun _ => rfl) out_w dx k hdx hk]
  match k, hk with
  | 0, _ => rfl
  | 1, _ => rfl

/-- C4: for every text, colours and scale `s > 1`, the scaled text sprite
obeys the nearest-neighbour law — destination pixel `(dx, dy)` equals the
1× glyph-buffer pixel `(dx/s, dy/s)` for all valid `(dx, dy)` — and at
scale 1 the 1× buffer is returned unchanged (as an `8*len × 8` sprite). -/
theorem claim_c4 (fbR : String → Nat → List Nat → List Nat) (text : String)
    (colour : Nat) (bg : Option Nat) :
    (∀ s : Nat, 1 < s → ∀ dx dy : Nat,
      dx < 8 * text.length * s → dy < 8 * s →
      bufPixel (render_text_sprite fbR text colour bg s).data
          (8 * text.length * s) dx dy
        = bufPixel (smallBuf fbR text colour bg) (8 * text.length)
            (dx / s) (dy / s)) ∧
    render_text_sprite fbR text colour bg 1 =
      ⟨8 * text.length, 8, smallBuf fbR text colour bg⟩ := by
  constructor
  · intro s hs dx dy hdx hdy
    have h1 : ¬ s < 1 := by omega
    have h2 : ¬ s = 1 := by omega
    have e0 := scaleBuf_getD (smallBuf fbR text colour bg) (8 * text.length) s
      (8 * text.length * s) (8 * s) dx dy 0 hdx hdy (by omega)
    have e1 := scaleBuf_getD (smallBuf fbR text colour bg) (8 * text.length) s
      (8 * text.length * s) (8 * s) dx dy 1 hdx hdy (by omega)
    cases bg with
    | none =>
      simp only [render_text_sprite, if_neg h1, if_neg h2, bufPixel,
        smallBuf, bg_hi, bg_lo, Prod.mk.injEq] at e0 e1 ⊢
      exact ⟨by simpa using e0, e1⟩
    | some v =>
      simp only [render_text_sprite, if_neg h1, if_neg h2, bufPixel,
        smallBuf, bg_hi, bg_lo, Prod.mk.injEq] at e0 e1 ⊢
      exact ⟨by simpa using e0, e1⟩
  · cases bg with
    | none => rfl
    | some v => rfl

/-- C4 witness: the nearest-neighbour law evaluated for `"A"` at scale 2,
destination pixel `(3, 5)`, with the identity rasterizer. -/
theorem claim_c4_witness :
    bufPixel
        (render_text_sprite (fun _ _ buf => buf) "A" 7 none 2).data
        (8 * "A".length * 2) 3 5
      = bufPixel (smallBuf (fun _ _ buf => buf) "A" 7 none)
          (8 * "A".length) (3 / 2) (5 / 2) :=
  (claim_c4 (fun _ _ buf => buf) "A" 7 none).1 2 (by decide) 3 5
    (by decide) (by decide)

theorem bgFill_zero : ∀ p : Nat, bgFill p 0 0 = List.replicate (p * 2) 0
  | 0 => rfl
  | p + 1 => by
    have ih := bgFill_zero p
    have h2 : (p + 1) * 2 = p * 2 + 2 := by ring
    simp only [bgFill, List.replicate_succ, List.flatten_cons] at ih ⊢
    rw [ih, h2]
    rfl

/-- C9: for every non-empty text, colour and position, the driver fast
path of `draw_text` (`tft.text` with its default `bg = 0x0000`) produces
exactly the same addressing window and the same pixel bytes as the
cached-sprite path for key `(text, colour, None, 1)`; and the base buffer
both paths start from is filled with opaque black `0x0000` bytes — "no
background" means a black background, not transparency. -/
theorem claim_c9 (fbR : String → Nat → List Nat → List Nat) (x y : Int)
    (text : String) (colour : Nat) (ht : text ≠ "") :
    tft_text fbR x y text colour 0x0000 =
      some (draw_text_sprite_path fbR x y text colour none 1) ∧
    bgFill (8 * text.length * 8) ((0x0000 >>> 8) &&& 0xFF) (0x0000 &&& 0xFF) =
      List.replicate (8 * text.length * 8 * 2) 0 := by
  constructor
  · simp [tft_text, draw_text_sprite_path, render_text_sprite, blit_rgb565, ht]
  · exact bgFill_zero (8 * text.length * 8)

/-- C9 witness: the fast path and the sprite path coincide for `"AB"` in
white at `(3, 4)` with the identity rasterizer. -/
theorem claim_c9_witness :
    tft_text (fun _ _ buf => buf) 3 4 "AB" 0xFFFF 0x0000 =
      some (draw_text_sprite_path (fun _ _ buf => buf) 3 4 "AB" 0xFFFF none 1) ∧
    bgFill (8 * "AB".length * 8) ((0x0000 >>> 8) &&& 0xFF) (0x0000 &&& 0xFF) =
      List.replicate (8 * "AB".length * 8 * 2) 0 :=
  claim_c9 (fun _ _ buf => buf) 3 4 "AB" 0xFFFF (by decide)

end PiPico
